import Mathlib

/-!
Verification development for the portfolio valuation and
performance-analytics engine of `src/script.js`.

The embedding covers:

* `analyzePortfolio` (src/script.js:1339-1612): date-axis construction,
  per-date lookup maps, forward-fill valuation loop, currency conversion,
  total-return / CAGR / max-drawdown metrics, and the start/end
  composition snapshots;
* `calcPortfolioMetrics` (src/script.js:667-751): the adaptive range
  prober used for preset-portfolio scoring.

Modelling conventions:

* JavaScript numbers are modelled by `ℚ` (idealized exact arithmetic);
  the one place where a non-finite JS result (`NaN`/`Infinity`) is
  observable in the reported output — the unguarded total-return division
  — is modelled by `Option ℚ`, `none` standing for the non-finite result.
* A JS `Map` built by successive `set` calls is modelled by the insertion
  list of `(key, value)` pairs, with lookup returning the latest write
  (`mapGet`).
* The `ymd` date-key function (`new Date(t*1000)` truncated to the local
  calendar date, src/script.js:1417-1420) depends on the browser's time
  zone; it is therefore a parameter `ymd : Int → Nat` of the embedding,
  mapping epoch seconds to an abstract date key whose `Nat` order stands
  for the lexicographic order of the zero-padded `YYYY-MM-DD` strings.
* `null` closes are `Option ℚ` values (`none`); where JS silently coerces
  `null` to `0` in arithmetic, the embedding uses `jsVal`.
* `Math.pow` with fractional exponents is modelled by an abstract
  parameter `pow : ℚ → ℚ → ℚ`; no claim depends on its values.
-/

namespace InvestProto

/-- Positional lookup (own recursor, used throughout the statements). -/
def nth {α : Type} : List α → Nat → Option α
  | [], _ => none
  | a :: _, 0 => some a
  | _ :: l, n + 1 => nth l n

/-- A raw fetched price series: parallel `timestamp` (epoch seconds) and
`close` arrays, a `null` close being `none`
(`res.timestamp` / `res.indicators.quote[0].close` in the source). -/
structure RawSeries where
  timestamp : List Int
  close : List (Option ℚ)
  deriving DecidableEq

/-- A per-date lookup map as built by repeated `Map.set` calls: the
insertion-ordered list of `(dateKey, close)` writes. -/
abbrev DateMap : Type := List (Nat × Option ℚ)

/-- JS `Map.get` composed with `Map.has`: the value of the latest write
for the key (`none` when the key was never written, `some none` when the
latest write stored `null`). -/
def mapGet : DateMap → Nat → Option (Option ℚ)
  | [], _ => none
  | e :: rest, d =>
      match mapGet rest d with
      | some v => some v
      | none => if e.1 = d then some e.2 else none

/-- `res.timestamp.forEach((t, i) => map.set(ymd(t), closes[i]))`
(src/script.js:1422-1424 and 1429-1431). -/
def buildMap (ymd : Int → Nat) (r : RawSeries) : DateMap :=
  (r.timestamp.map ymd).zip r.close

/-- `if (!res) return new Map()` (src/script.js:1427). -/
def stockMapOf (ymd : Int → Nat) : Option RawSeries → DateMap
  | some r => buildMap ymd r
  | none => []

/-- The date keys a (possibly failed) series contributes to the axis. -/
def seriesKeys (ymd : Int → Nat) : Option RawSeries → List Nat
  | some r => r.timestamp.map ymd
  | none => []

/-- All date keys inserted into `allDatesSet` (src/script.js:1438-1442),
before deduplication. -/
def rawDateKeys (ymd : Int → Nat) (exch : RawSeries)
    (stocks : List (Option RawSeries)) : List Nat :=
  exch.timestamp.map ymd ++ (stocks.map (seriesKeys ymd)).flatten

/-- `Array.from(allDatesSet).sort()` (src/script.js:1443): the distinct
date keys in ascending order. -/
def axisOf (ymd : Int → Nat) (exch : RawSeries)
    (stocks : List (Option RawSeries)) : List Nat :=
  List.insertionSort (· ≤ ·) (rawDateKeys ymd exch stocks).dedup

/-- A portfolio holding (`items` entries, src/script.js:1340). -/
structure Holding where
  symbol : String
  name : String
  quantity : ℚ
  deriving DecidableEq

/-- `item.symbol.endsWith('.KS') || item.symbol.endsWith('.KQ')`
(src/script.js:1474), a character-level suffix test. -/
def isKRW (s : String) : Bool :=
  List.isSuffixOf ".KS".data s.data || List.isSuffixOf ".KQ".data s.data

/-- One forward-fill update: take the day's close when the map has a
non-`null` entry for the date, otherwise keep the previous value
(src/script.js:1455-1457 for the FX rate, 1466-1471 for each stock). -/
def ffStep (m : DateMap) (d : Nat) (last : ℚ) : ℚ :=
  match mapGet m d with
  | some (some v) => v
  | _ => last

/-- Forward-filled value after processing the dates `ds` starting from
`init` — the loop state of the valuation pass. -/
def ffVal (m : DateMap) (init : ℚ) (ds : List Nat) : ℚ :=
  ds.foldl (fun acc d => ffStep m d acc) init

/-- The mutable loop state of the valuation pass: `lastExchange` and the
`lastPrices` array (src/script.js:1450-1451). -/
structure FFState where
  lastExchange : ℚ
  lastPrices : List ℚ
  deriving DecidableEq

/-- `exchangeDataRaw.indicators.quote[0].close[0] || 1200`
(src/script.js:1450): the first raw FX close, with 1200 substituted when
that entry is missing, `null`, or `0` (JS falsy). -/
def initExchange (exch : RawSeries) : ℚ :=
  match exch.close with
  | some v :: _ => if v = 0 then 1200 else v
  | _ => 1200

/-- Currency conversion for one holding on one date
(src/script.js:1474-1481). -/
def holdingValue (h : Holding) (price fx : ℚ) : ℚ :=
  if isKRW h.symbol then price * h.quantity else price * h.quantity * fx

/-- One iteration of `sortedDates.forEach` (src/script.js:1453-1488):
update the FX rate, forward-fill every holding's price, and sum the
converted values. -/
def valueStep (items : List Holding) (maps : List DateMap) (exchMap : DateMap)
    (st : FFState) (d : Nat) : FFState × ℚ :=
  let fx := ffStep exchMap d st.lastExchange
  let rows := (items.zip (maps.zip st.lastPrices)).map fun x =>
    let p := ffStep x.2.1 d x.2.2
    (p, holdingValue x.1 p fx)
  (⟨fx, rows.map Prod.fst⟩, (rows.map Prod.snd).sum)

/-- The whole `sortedDates.forEach` loop: final state plus the
`portfolioValues` array. -/
def valueLoop (items : List Holding) (maps : List DateMap) (exchMap : DateMap) :
    FFState → List Nat → FFState × List ℚ
  | st, [] => (st, [])
  | st, d :: ds =>
      let s1 := valueStep items maps exchMap st d
      let rest := valueLoop items maps exchMap s1.1 ds
      (rest.1, s1.2 :: rest.2)

/-- Initial loop state: `lastExchange = close[0] || 1200`,
`lastPrices = new Array(items.length).fill(0)` (src/script.js:1450-1451). -/
def initState (exch : RawSeries) (items : List Holding) : FFState :=
  ⟨initExchange exch, List.replicate items.length 0⟩

/-- The `portfolioValues` array produced by `analyzePortfolio`
(src/script.js:1446-1488). -/
def portfolioValues (ymd : Int → Nat) (exch : RawSeries)
    (stocks : List (Option RawSeries)) (items : List Holding) : List ℚ :=
  (valueLoop items (stocks.map (stockMapOf ymd)) (buildMap ymd exch)
    (initState exch items) (axisOf ymd exch stocks)).2

/-- The loop state after the full pass (used by the end-composition
snapshot, src/script.js:1601-1612). -/
def finalState (ymd : Int → Nat) (exch : RawSeries)
    (stocks : List (Option RawSeries)) (items : List Holding) : FFState :=
  (valueLoop items (stocks.map (stockMapOf ymd)) (buildMap ymd exch)
    (initState exch items) (axisOf ymd exch stocks)).1

/-- The forward-filled price the loop holds for holding `idx` right after
processing axis position `j` — the `price` used in that day's valuation. -/
def effectivePriceAt (ymd : Int → Nat) (exch : RawSeries)
    (stocks : List (Option RawSeries)) (items : List Holding)
    (idx j : Nat) : ℚ :=
  (nth (valueLoop items (stocks.map (stockMapOf ymd)) (buildMap ymd exch)
    (initState exch items) ((axisOf ymd exch stocks).take (j + 1))).1.lastPrices
    idx).getD 0

/-- The `lastExchange` value the loop holds right after processing axis
position `j` — the FX multiplier used for foreign holdings that day. -/
def exchangeRateAt (ymd : Int → Nat) (exch : RawSeries)
    (stocks : List (Option RawSeries)) (items : List Holding) (j : Nat) : ℚ :=
  (valueLoop items (stocks.map (stockMapOf ymd)) (buildMap ymd exch)
    (initState exch items) ((axisOf ymd exch stocks).take (j + 1))).1.lastExchange

/-- `((finalValue - initialValue) / initialValue) * 100`
(src/script.js:1495). The division is unconditional in the source; when
`first = 0` the JS result is `NaN` or `±Infinity`, modelled as `none`. -/
def totalReturnJS (first last : ℚ) : Option ℚ :=
  if first = 0 then none else some ((last - first) / first * 100)

/-- `rangeMap[range] || 5` with
`{'10y':10,'7y':7,'5y':5,'3y':3,'1y':1,'6mo':0.5}`
(src/script.js:1499-1502). -/
def rangeYears (range : String) : ℚ :=
  if range = "10y" then 10
  else if range = "7y" then 7
  else if range = "5y" then 5
  else if range = "3y" then 3
  else if range = "1y" then 1
  else if range = "6mo" then 1 / 2
  else 5

/-- The guarded CAGR of the single-portfolio path
(src/script.js:1504-1507). -/
def cagrReported (pow : ℚ → ℚ → ℚ) (range : String) (first last : ℚ) : ℚ :=
  if 0 < first ∧ 0 < last then
    (pow (last / first) (1 / rangeYears range) - 1) * 100
  else 0

/-- One step of the running-peak drawdown scan
(src/script.js:1513-1517 and 733-737). `none` models the
`peak = -Infinity` initial value, which any first value exceeds. -/
def mddStep (acc : Option ℚ × ℚ) (v : ℚ) : Option ℚ × ℚ :=
  let peak : ℚ :=
    match acc.1 with
    | none => v
    | some p => if p < v then v else p
  let dd := (v - peak) / peak
  (some peak, if dd < acc.2 then dd else acc.2)

/-- `maxDrawdown` as a fraction (the source reports `maxDrawdown * 100`). -/
def maxDrawdown (vs : List ℚ) : ℚ :=
  (vs.foldl mddStep (none, 0)).2

/-- The three reported statistics of `analyzePortfolio`. -/
structure Stats where
  totalReturn : Option ℚ
  cagr : ℚ
  mdd : ℚ
  deriving DecidableEq

/-- The performance-metrics block of `analyzePortfolio`
(src/script.js:1490-1517). -/
def analyzeStats (pow : ℚ → ℚ → ℚ) (ymd : Int → Nat) (range : String)
    (exch : RawSeries) (stocks : List (Option RawSeries))
    (items : List Holding) : Stats :=
  let vs := portfolioValues ymd exch stocks items
  let first := vs.headD 0
  let last := vs.getLast?.getD 0
  ⟨totalReturnJS first last, cagrReported pow range first last, maxDrawdown vs⟩

/-- JS coercion of a possibly-`null` number used as a multiplicand. -/
def jsVal (o : Option ℚ) : ℚ := o.getD 0

/-- The start-composition snapshot (src/script.js:1566-1599). The source
also scans for the first valid price of each holding, but that scanned
value is never used; only the entry at `sortedDates[0]` feeds the value. -/
def startValues (ymd : Int → Nat) (exch : RawSeries)
    (stocks : List (Option RawSeries)) (items : List Holding) :
    List (String × ℚ) :=
  let axis := axisOf ymd exch stocks
  let exchMap := buildMap ymd exch
  let maps := stocks.map (stockMapOf ymd)
  match axis.head? with
  | none => items.map fun it => (it.name, 0)
  | some firstDate =>
      let initialExchange : ℚ :=
        match mapGet exchMap firstDate with
        | some v => jsVal v
        | none => 1200
      (items.zip maps).map fun x =>
        match mapGet x.2 firstDate with
        | some c =>
            (x.1.name,
              if isKRW x.1.symbol then jsVal c * x.1.quantity
              else jsVal c * x.1.quantity * initialExchange)
        | none => (x.1.name, 0)

/-- The end-composition snapshot (src/script.js:1601-1612): the final
forward-filled price and FX rate, with a `price > 0` guard. -/
def endValues (ymd : Int → Nat) (exch : RawSeries)
    (stocks : List (Option RawSeries)) (items : List Holding) :
    List (String × ℚ) :=
  let fs := finalState ymd exch stocks items
  (items.zip fs.lastPrices).map fun x =>
    if 0 < x.2 then
      (x.1.name,
        if isKRW x.1.symbol then x.2 * x.1.quantity
        else x.2 * x.1.quantity * fs.lastExchange)
    else (x.1.name, 0)

/-- Modelled from the spec: `compositionSnapshot(holdings, axis, atStart)`
— "for each holding, its normalized value at the first axis date where a
price is available (0 if never available by that point)". Stated only to
compare the spec's wording with the source's `startValues`. -/
def claimStartValue (pm : DateMap) (exchMap : DateMap) (initE : ℚ)
    (axis : List Nat) (it : Holding) : ℚ :=
  match axis.findIdx? (fun d =>
      match mapGet pm d with
      | some (some _) => true
      | _ => false) with
  | none => 0
  | some j =>
      let p : ℚ :=
        match nth axis j with
        | some d =>
            match mapGet pm d with
            | some (some v) => v
            | _ => 0
        | none => 0
      let fx := if isKRW it.symbol then 1 else ffVal exchMap initE (axis.take (j + 1))
      p * it.quantity * fx

/-- A preset-portfolio entry (`pf.items`, src/script.js:667). -/
structure WItem where
  symbol : String
  weight : ℚ
  deriving DecidableEq

/-- The record returned by `calcPortfolioMetrics`
(src/script.js:739-743 and 750). -/
structure ProbeResult where
  range : String
  ret : String
  mdd : String
  deriving DecidableEq

/-- Negation of `results.some(r => !r || !r.timestamp || r.timestamp.length < 10)`
(src/script.js:678): every fetch succeeded with at least 10 raw
observations. -/
def validResults (results : List (Option RawSeries)) : Bool :=
  results.all fun r =>
    match r with
    | some s => decide (10 ≤ s.timestamp.length)
    | none => false

/-- The latest start date among all assets (src/script.js:683-686),
starting from 0 as in the source. -/
def maxStartTime (rs : List RawSeries) : Int :=
  rs.foldl (fun m r =>
    match r.timestamp.head? with
    | some t => if m < t then t else m
    | none => m) 0

/-- `slice(findIndex(t => t >= maxStartTime))` (src/script.js:689-695);
when no timestamp qualifies, JS `findIndex` yields `-1` and `slice(-1)`
keeps only the last element. -/
def trimFrom (maxStart : Int) (r : RawSeries) : RawSeries :=
  match r.timestamp.findIdx? (fun t => decide (maxStart ≤ t)) with
  | some i => ⟨r.timestamp.drop i, r.close.drop i⟩
  | none =>
      ⟨r.timestamp.drop (r.timestamp.length - 1),
        r.close.drop (r.close.length - 1)⟩

/-- `Math.min(...lengths)` (src/script.js:698) for the nonempty case; the
source would diverge on an empty preset, the model returns 0 there. -/
def minLenOf (ns : List Nat) : Nat :=
  match ns with
  | [] => 0
  | n :: rest => rest.foldl min n

/-- JS `Number.prototype.toFixed(2)` on an exact rational: magnitude
rounded to the nearest hundredth, ties away from zero. -/
def toFixed2 (q : ℚ) : String :=
  let s := if q < 0 then "-" else ""
  let n : Int := Int.floor (|q| * 100 + 1 / 2)
  let ip := n / 100
  let fp := (n % 100).toNat
  s ++ toString ip ++ "." ++ (if fp < 10 then "0" else "") ++ toString fp

/-- `closes.map(p => p / closes[0])` (src/script.js:706-709), with JS
`null` coerced to 0 by the arithmetic. -/
def normSeries (r : RawSeries) : List ℚ :=
  let sp := jsVal (r.close.head?.getD none)
  r.close.map fun p => jsVal p / sp

/-- `Σ weight × normalizedPrice` per day (src/script.js:712-718). -/
def probeValues (items : List WItem) (norms : List (List ℚ))
    (minLen : Nat) : List ℚ :=
  (List.range minLen).map fun i =>
    ((items.zip norms).map fun x => x.1.weight * (nth x.2 i).getD 0).sum

/-- The accepted-range computation (src/script.js:701-743): synthetic
value series, elapsed-time CAGR, running-peak drawdown, formatting. -/
def probeComputeOn (pow : ℚ → ℚ → ℚ) (items : List WItem)
    (processed : List RawSeries) (minLen : Nat) (range : String) :
    ProbeResult :=
  let norms := processed.map normSeries
  let values := probeValues items norms minLen
  let startVal := values.headD 0
  let endVal := values.getLast?.getD 0
  let t0 := processed.headD ⟨[], []⟩
  let durationDays : ℚ :=
    (((nth t0.timestamp (minLen - 1)).getD 0 - t0.timestamp.headD 0 : Int) : ℚ) /
      (3600 * 24)
  let years := durationDays / (365.25 : ℚ)
  let cagr := (pow (endVal / startVal) (1 / years) - 1) * 100
  ⟨range, toFixed2 cagr, toFixed2 (maxDrawdown values * 100)⟩

/-- `items.map(item => fetchHistory(item.symbol, range))`
(src/script.js:674-675). -/
def probeResults (fetch : String → String → Option RawSeries)
    (items : List WItem) (range : String) : List (Option RawSeries) :=
  items.map fun it => fetch it.symbol range

/-- The per-asset series trimmed to the latest common start
(src/script.js:682-695). -/
def probeAligned (fetch : String → String → Option RawSeries)
    (items : List WItem) (range : String) : List RawSeries :=
  let rs := (probeResults fetch items range).map fun r => r.getD ⟨[], []⟩
  rs.map (trimFrom (maxStartTime rs))

/-- The common aligned length after trimming (src/script.js:698). -/
def probeMinLen (fetch : String → String → Option RawSeries)
    (items : List WItem) (range : String) : Nat :=
  minLenOf ((probeAligned fetch items range).map fun p => p.timestamp.length)

/-- One candidate range of the prober loop (src/script.js:672-747):
`none` means the range was rejected (`continue`). -/
def probeRange (pow : ℚ → ℚ → ℚ) (fetch : String → String → Option RawSeries)
    (items : List WItem) (range : String) : Option ProbeResult :=
  if validResults (probeResults fetch items range) then
    if 120 ≤ probeMinLen fetch items range then
      some (probeComputeOn pow items (probeAligned fetch items range)
        (probeMinLen fetch items range) range)
    else none
  else none

/-- `{ range: 'N/A', return: '0.00', mdd: '0.00' }` (src/script.js:750). -/
def sentinelResult : ProbeResult := ⟨"N/A", "0.00", "0.00"⟩

/-- The `for (const range of ranges)` loop (src/script.js:671-750). -/
def probeLoop (pow : ℚ → ℚ → ℚ) (fetch : String → String → Option RawSeries)
    (items : List WItem) : List String → ProbeResult
  | [] => sentinelResult
  | range :: rest =>
      match probeRange pow fetch items range with
      | some r => r
      | none => probeLoop pow fetch items rest

/-- `calcPortfolioMetrics` (src/script.js:667-751), with the per-symbol
fetch results supplied as the function `fetch symbol range`. -/
def calcPortfolioMetrics (pow : ℚ → ℚ → ℚ)
    (fetch : String → String → Option RawSeries) (items : List WItem) :
    ProbeResult :=
  probeLoop pow fetch items ["10y", "5y", "3y", "1y"]

/-! ### Concrete fixtures used by witnesses and counterexamples -/

/-- Date-key function for concrete instances: timestamps are already
day keys. -/
def wYmd : Int → Nat := fun t => t.toNat

/-- FX series for the forward-fill witness: one observation at key 2. -/
def wExch3 : RawSeries := ⟨[2], [some 1300]⟩

/-- Stocks for the forward-fill witness: holding 0 observes closes at
keys 1 and 3, holding 1 only at key 3. -/
def wStocks3 : List (Option RawSeries) :=
  [some ⟨[1, 3], [some 7, some 9]⟩, some ⟨[3], [some 50]⟩]

/-- Holdings for the forward-fill witness. -/
def wItems3 : List Holding := [⟨"AAPL", "A", 1⟩, ⟨"MSFT", "B", 1⟩]

/-- FX series whose first observation (key 3, close 1000) comes after
the first stock date. -/
def c7Exch : RawSeries := ⟨[3], [some 1000]⟩

/-- A single foreign stock observed at key 1, before any FX data. -/
def c7Stocks : List (Option RawSeries) := [some ⟨[1], [some 10]⟩]

/-- The single foreign holding for the FX-fallback instance. -/
def c7Items : List Holding := [⟨"AAPL", "A", 1⟩]

/-- FX series for the composition-snapshot instance. -/
def c8Exch : RawSeries := ⟨[1], [some 1000]⟩

/-- Stocks for the composition-snapshot instance: holding A observed at
key 1 (the first axis date), holding B only from key 2. -/
def c8Stocks : List (Option RawSeries) :=
  [some ⟨[1], [some 100]⟩, some ⟨[2], [some 50]⟩]

/-- Two domestic holdings for the composition-snapshot instance. -/
def c8Items : List Holding := [⟨"A.KS", "A", 1⟩, ⟨"B.KS", "B", 1⟩]

/-- FX series for the zero-first-valuation instance. -/
def c9Exch : RawSeries := ⟨[1], [some 1300]⟩

/-- A foreign stock whose first observation (key 2) comes after the
first axis date contributed by the FX series. -/
def c9Stocks : List (Option RawSeries) := [some ⟨[2], [some 10]⟩]

/-- The single foreign holding for the zero-first-valuation instance. -/
def c9Items : List Holding := [⟨"AAPL", "A", 2⟩]

/-- Date-key function that collapses several timestamps onto one
calendar-date key (integer division by 10). -/
def c10Ymd : Int → Nat := fun t => (t / 10).toNat

/-- FX series for the duplicate-date instance: one observation on the
single date key 1. -/
def c10Exch : RawSeries := ⟨[12], [some 1300]⟩

/-- A stock with two observations (closes 100 then 110) whose timestamps
truncate to the same date key 1. -/
def c10Stocks : List (Option RawSeries) := [some ⟨[11, 15], [some 100, some 110]⟩]

/-- A single domestic holding for the duplicate-date instance. -/
def c10Items : List Holding := [⟨"A.KS", "A", 1⟩]

/-- A fetch collaborator that returns a series with only 8 raw
observations at every range (the spec's Scenario D). -/
def probeFetch8 : String → String → Option RawSeries :=
  fun _ _ => some ⟨[1, 2, 3, 4, 5, 6, 7, 8],
    [some 1, some 1, some 1, some 1, some 1, some 1, some 1, some 1]⟩

/-! ### Helper lemmas about `nth` -/

theorem nth_map {α β : Type} (f : α → β) :
    ∀ (l : List α) (n : Nat), nth (l.map f) n = (nth l n).map f
  | [], _ => rfl
  | _ :: _, 0 => rfl
  | _ :: l, n + 1 => nth_map f l n

theorem nth_some_lt {α : Type} :
    ∀ (l : List α) (n : Nat) (a : α), nth l n = some a → n < l.length
  | [], n, _, h => by simp [nth] at h
  | _ :: _, 0, _, _ => Nat.succ_pos _
  | _ :: l, n + 1, a, h => Nat.succ_lt_succ (nth_some_lt l n a h)

theorem nth_lt_length {α : Type} :
    ∀ (l : List α) (n : Nat), n < l.length → ∃ a, nth l n = some a
  | [], n, h => absurd h (by simp)
  | a :: _, 0, _ => ⟨a, rfl⟩
  | _ :: l, n + 1, h => nth_lt_length l n (Nat.lt_of_succ_lt_succ h)

theorem nth_mem {α : Type} :
    ∀ (l : List α) (n : Nat) (a : α), nth l n = some a → a ∈ l
  | [], _, _, h => by simp [nth] at h
  | b :: _, 0, a, h => by
      simp [nth] at h
      exact h ▸ List.mem_cons_self b _
  | b :: l, n + 1, a, h => List.mem_cons_of_mem b (nth_mem l n a h)

theorem mem_nth {α : Type} {a : α} :
    ∀ {l : List α}, a ∈ l → ∃ n, nth l n = some a := by
  intro l h
  induction l with
  | nil => simp at h
  | cons b l ih =>
      rcases List.mem_cons.mp h with h1 | h2
      · exact ⟨0, by simp [nth, h1]⟩
      · obtain ⟨n, hn⟩ := ih h2
        exact ⟨n + 1, hn⟩

theorem nth_take {α : Type} :
    ∀ (l : List α) (m n : Nat), n < m → nth (l.take m) n = nth l n
  | [], _, _, _ => by simp
  | _ :: _, _ + 1, 0, _ => rfl
  | _ :: l, m + 1, n + 1, h =>
      nth_take l m n (Nat.lt_of_succ_lt_succ h)

theorem nth_drop {α : Type} :
    ∀ (l : List α) (m n : Nat), nth (l.drop m) n = nth l (m + n)
  | _, 0, _ => by simp [Nat.zero_add]
  | [], _ + 1, _ => by simp [nth]
  | _ :: l, m + 1, n => by
      simpa [Nat.succ_add] using nth_drop l m n

theorem take_succ_nth {α : Type} :
    ∀ (l : List α) (n : Nat), l.take (n + 1) = l.take n ++ (nth l n).toList
  | [], n => by simp [nth]
  | a :: l, 0 => by simp [nth]
  | a :: l, n + 1 => by
      simpa [List.take_succ_cons] using take_succ_nth l n

theorem nth_zip {α β : Type} :
    ∀ (as : List α) (bs : List β) (n : Nat),
      nth (as.zip bs) n = (nth as n).bind (fun a => (nth bs n).map (fun b => (a, b)))
  | [], _, _ => by simp [nth]
  | _ :: _, [], n => by cases n <;> simp [nth]
  | a :: as, b :: bs, 0 => rfl
  | _ :: as, _ :: bs, n + 1 => nth_zip as bs n

theorem nth_replicate {α : Type} (c : α) :
    ∀ (m n : Nat), nth (List.replicate m c) n = if n < m then some c else none
  | 0, n => by simp [nth]
  | m + 1, 0 => by simp [List.replicate, nth]
  | m + 1, n + 1 => by
      simpa [List.replicate, nth, Nat.succ_lt_succ_iff] using nth_replicate c m n

theorem pairwise_rel_nth {α : Type} {r : α → α → Prop} :
    ∀ {l : List α}, l.Pairwise r → ∀ {i j : Nat} {a b : α},
      i < j → nth l i = some a → nth l j = some b → r a b := by
  intro l hp
  induction hp with
  | nil => intro i j a b _ h _; simp [nth] at h
  | cons hhead _ ih =>
      intro i j a b hij ha hb
      cases i with
      | zero =>
          cases j with
          | zero => exact absurd hij (Nat.lt_irrefl 0)
          | succ j =>
              simp [nth] at ha
              exact ha ▸ hhead b (nth_mem _ j b hb)
      | succ i =>
          cases j with
          | zero => exact absurd hij (by omega)
          | succ j => exact ih (Nat.lt_of_succ_lt_succ hij) ha hb

/-! ### Helper lemmas about forward-fill -/

theorem ffVal_nil (m : DateMap) (init : ℚ) : ffVal m init [] = init := rfl

theorem ffVal_cons (m : DateMap) (init : ℚ) (d : Nat) (ds : List Nat) :
    ffVal m init (d :: ds) = ffVal m (ffStep m d init) ds := rfl

theorem ffVal_append (m : DateMap) (init : ℚ) (as bs : List Nat) :
    ffVal m init (as ++ bs) = ffVal m (ffVal m init as) bs :=
  List.foldl_append _ _ _ _

theorem ffStep_of_no_valid {m : DateMap} {d : Nat}
    (h : ¬∃ v, mapGet m d = some (some v)) (last : ℚ) :
    ffStep m d last = last := by
  unfold ffStep
  cases hm : mapGet m d with
  | none => rfl
  | some o =>
      cases o with
      | none => rfl
      | some v => exact absurd ⟨v, hm⟩ h

theorem ffStep_of_valid {m : DateMap} {d : Nat} {v : ℚ}
    (h : mapGet m d = some (some v)) (last : ℚ) :
    ffStep m d last = v := by
  unfold ffStep
  rw [h]

theorem ffVal_of_no_valid {m : DateMap} :
    ∀ {ds : List Nat}, (∀ d ∈ ds, ¬∃ v, mapGet m d = some (some v)) →
      ∀ (init : ℚ), ffVal m init ds = init := by
  intro ds
  induction ds with
  | nil => intro _ _; rfl
  | cons d ds ih =>
      intro h init
      rw [ffVal_cons, ffStep_of_no_valid (h d (List.mem_cons_self d ds)) init]
      exact ih (fun e he => h e (List.mem_cons_of_mem d he)) init

/-! ### Helper lemmas about the valuation loop -/

theorem tripleZip_map_map {α : Type} (items : List Holding)
    (f : DateMap → ℚ → ℚ) (g : Holding → DateMap → ℚ → α) :
    ∀ (maps : List DateMap) (lps : List ℚ),
      ((items.zip (maps.zip ((items.zip (maps.zip lps)).map
          (fun x => f x.2.1 x.2.2)))).map (fun x => g x.1 x.2.1 x.2.2))
        = (items.zip (maps.zip lps)).map (fun x => g x.1 x.2.1 (f x.2.1 x.2.2)) := by
  induction items with
  | nil => intro maps lps; rfl
  | cons it items ih =>
      intro maps lps
      cases maps with
      | nil => rfl
      | cons m maps =>
          cases lps with
          | nil => rfl
          | cons lp lps => simpa using ih maps lps

theorem tripleZip_map_proj (items : List Holding) :
    ∀ (maps : List DateMap) (lps : List ℚ),
      maps.length = items.length → lps.length = items.length →
      (items.zip (maps.zip lps)).map (fun x => x.2.2) = lps := by
  induction items with
  | nil =>
      intro maps lps _ hl
      rw [List.length_eq_zero.mp hl]
      rfl
  | cons it items ih =>
      intro maps lps hm hl
      cases maps with
      | nil => simp at hm
      | cons m maps =>
          cases lps with
          | nil => simp at hl
          | cons lp lps =>
              simp only [List.zip_cons_cons, List.map_cons]
              rw [ih maps lps (by simpa using hm) (by simpa using hl)]

theorem zip_replicate_collapse {α : Type} (items : List Holding)
    (g : Holding → DateMap → ℚ → α) :
    ∀ (maps : List DateMap),
      (items.zip (maps.zip (List.replicate items.length (0 : ℚ)))).map
          (fun x => g x.1 x.2.1 x.2.2)
        = (items.zip maps).map (fun x => g x.1 x.2 0) := by
  induction items with
  | nil => intro maps; rfl
  | cons it items ih =>
      intro maps
      cases maps with
      | nil => rfl
      | cons m maps => simpa [List.replicate] using ih maps

theorem valueLoop_lastExchange (items : List Holding) (maps : List DateMap)
    (exchMap : DateMap) :
    ∀ (ds : List Nat) (st : FFState),
      (valueLoop items maps exchMap st ds).1.lastExchange =
        ffVal exchMap st.lastExchange ds := by
  intro ds
  induction ds with
  | nil => intro st; rfl
  | cons d ds ih =>
      intro st
      show (valueLoop items maps exchMap
        (valueStep items maps exchMap st d).1 ds).1.lastExchange = _
      rw [ih, ffVal_cons]
      rfl

theorem valueLoop_lastPrices (items : List Holding) (maps : List DateMap)
    (exchMap : DateMap) (hm : maps.length = items.length) :
    ∀ (ds : List Nat) (e : ℚ) (lps : List ℚ), lps.length = items.length →
      (valueLoop items maps exchMap ⟨e, lps⟩ ds).1.lastPrices =
        (items.zip (maps.zip lps)).map (fun x => ffVal x.2.1 x.2.2 ds) := by
  intro ds
  induction ds with
  | nil =>
      intro e lps hl
      show lps = _
      have := tripleZip_map_proj items maps lps hm hl
      simp only [ffVal_nil]
      exact this.symm
  | cons d ds ih =>
      intro e lps hl
      show (valueLoop items maps exchMap
        (valueStep items maps exchMap ⟨e, lps⟩ d).1 ds).1.lastPrices = _
      have hstep : (valueStep items maps exchMap ⟨e, lps⟩ d).1 =
          ⟨ffStep exchMap d e,
            (items.zip (maps.zip lps)).map (fun x => ffStep x.2.1 d x.2.2)⟩ := by
        simp [valueStep]
      rw [hstep]
      have hlen : ((items.zip (maps.zip lps)).map
          (fun x => ffStep x.2.1 d x.2.2)).length = items.length := by
        simp [List.length_zip, hm, hl]
      rw [ih (ffStep exchMap d e) _ hlen]
      rw [tripleZip_map_map items (fun mp lp => ffStep mp d lp)
        (fun _ mp lp => ffVal mp lp ds) maps lps]
      simp only [ffVal_cons]

theorem valueLoop_values_nth (items : List Holding) (maps : List DateMap)
    (exchMap : DateMap) :
    ∀ (ds : List Nat) (e : ℚ) (lps : List ℚ) (j : Nat), j < ds.length →
      nth (valueLoop items maps exchMap ⟨e, lps⟩ ds).2 j = some
        (((items.zip (maps.zip lps)).map (fun x =>
          holdingValue x.1 (ffVal x.2.1 x.2.2 (ds.take (j + 1)))
            (ffVal exchMap e (ds.take (j + 1))))).sum) := by
  intro ds
  induction ds with
  | nil => intro e lps j h; simp at h
  | cons d ds ih =>
      intro e lps j hj
      have hstep1 : (valueStep items maps exchMap ⟨e, lps⟩ d).1 =
          ⟨ffStep exchMap d e,
            (items.zip (maps.zip lps)).map (fun x => ffStep x.2.1 d x.2.2)⟩ := by
        simp [valueStep]
      cases j with
      | zero =>
          show nth ((valueStep items maps exchMap ⟨e, lps⟩ d).2 :: _) 0 = _
          simp only [nth]
          congr 1
          simp only [valueStep, List.map_map, List.take, ffVal_cons, ffVal_nil]
          rfl
      | succ j =>
          show nth ((valueStep items maps exchMap ⟨e, lps⟩ d).2 ::
            (valueLoop items maps exchMap
              (valueStep items maps exchMap ⟨e, lps⟩ d).1 ds).2) (j + 1) = _
          simp only [nth]
          rw [hstep1, ih (ffStep exchMap d e) _ j (Nat.lt_of_succ_lt_succ hj)]
          congr 1
          rw [tripleZip_map_map items (fun mp lp => ffStep mp d lp)
            (fun it mp lp => holdingValue it (ffVal mp lp (ds.take (j + 1)))
              (ffVal exchMap (ffStep exchMap d e) (ds.take (j + 1)))) maps lps]
          simp only [List.take, ffVal_cons]

/-! ### Helper lemmas about the date axis -/

theorem axis_perm_dedup (ymd : Int → Nat) (exch : RawSeries)
    (stocks : List (Option RawSeries)) :
    (axisOf ymd exch stocks).Perm (rawDateKeys ymd exch stocks).dedup :=
  List.perm_insertionSort _ _

theorem axis_sorted_le (ymd : Int → Nat) (exch : RawSeries)
    (stocks : List (Option RawSeries)) :
    (axisOf ymd exch stocks).Sorted (· ≤ ·) :=
  List.sorted_insertionSort _ _

theorem axis_nodup (ymd : Int → Nat) (exch : RawSeries)
    (stocks : List (Option RawSeries)) :
    (axisOf ymd exch stocks).Nodup :=
  ((axis_perm_dedup ymd exch stocks).nodup_iff).mpr
    (List.nodup_dedup _)

theorem axis_sorted_lt (ymd : Int → Nat) (exch : RawSeries)
    (stocks : List (Option RawSeries)) :
    (axisOf ymd exch stocks).Sorted (· < ·) := by
  have h1 := axis_sorted_le ymd exch stocks
  have h2 := axis_nodup ymd exch stocks
  exact (List.Pairwise.and h1 h2).imp fun h => lt_of_le_of_ne h.1 h.2

theorem axis_mem_iff (ymd : Int → Nat) (exch : RawSeries)
    (stocks : List (Option RawSeries)) (d : Nat) :
    d ∈ axisOf ymd exch stocks ↔ d ∈ rawDateKeys ymd exch stocks := by
  rw [(axis_perm_dedup ymd exch stocks).mem_iff]
  exact List.mem_dedup

theorem axis_length_distinct (ymd : Int → Nat) (exch : RawSeries)
    (stocks : List (Option RawSeries)) :
    (axisOf ymd exch stocks).length = (rawDateKeys ymd exch stocks).toFinset.card := by
  rw [(axis_perm_dedup ymd exch stocks).length_eq, List.card_toFinset]

/-! ### Claim theorems -/

/-- C2: for any inputs, the unified date axis produced by
`analyzePortfolio` is the sorted set-union of the distinct date keys
observed in any input series (FX included): it is strictly increasing,
has no duplicates, its length is the number of distinct keys, and its
members are exactly the observed keys. -/
theorem axis_is_sorted_distinct_union (ymd : Int → Nat) (exch : RawSeries)
    (stocks : List (Option RawSeries)) :
    (axisOf ymd exch stocks).Sorted (· < ·) ∧
    (axisOf ymd exch stocks).Nodup ∧
    (axisOf ymd exch stocks).length = (rawDateKeys ymd exch stocks).toFinset.card ∧
    (∀ d : Nat, d ∈ axisOf ymd exch stocks ↔ d ∈ rawDateKeys ymd exch stocks) :=
  ⟨axis_sorted_lt ymd exch stocks, axis_nodup ymd exch stocks,
    axis_length_distinct ymd exch stocks, axis_mem_iff ymd exch stocks⟩

/-- Witness for C2: a concrete instance with overlapping and duplicated
dates across two stock series and the FX series. -/
theorem axis_is_sorted_distinct_union_w :
    (axisOf (fun t => t.toNat) ⟨[1, 3], [some 1300, some 1310]⟩
        [some ⟨[2, 3], [some 5, some 6]⟩, none]).Sorted (· < ·) ∧
    axisOf (fun t => t.toNat) ⟨[1, 3], [some 1300, some 1310]⟩
        [some ⟨[2, 3], [some 5, some 6]⟩, none] = [1, 2, 3] := by
  constructor
  · exact (axis_is_sorted_distinct_union (fun t => t.toNat)
      ⟨[1, 3], [some 1300, some 1310]⟩ [some ⟨[2, 3], [some 5, some 6]⟩, none]).1
  · simp +decide [axisOf, rawDateKeys, seriesKeys]

/-- C1: at every position `j` of the unified axis, the valuation loop of
`analyzePortfolio` produces the sum over all holdings of
forward-filled price × quantity × fxMultiplier, where the fxMultiplier is
1 for symbols ending in `.KS`/`.KQ` and the forward-filled FX rate
otherwise. -/
theorem valuation_total_formula (ymd : Int → Nat) (exch : RawSeries)
    (stocks : List (Option RawSeries)) (items : List Holding)
    (hm : stocks.length = items.length) (j : Nat)
    (hj : j < (axisOf ymd exch stocks).length) :
    nth (portfolioValues ymd exch stocks items) j = some
      (((items.zip (stocks.map (stockMapOf ymd))).map (fun x =>
        ffVal x.2 0 ((axisOf ymd exch stocks).take (j + 1)) * x.1.quantity *
          (if isKRW x.1.symbol then 1
           else ffVal (buildMap ymd exch) (initExchange exch)
             ((axisOf ymd exch stocks).take (j + 1))))).sum) := by
  show nth (valueLoop items (stocks.map (stockMapOf ymd)) (buildMap ymd exch)
      ⟨initExchange exch, List.replicate items.length 0⟩
      (axisOf ymd exch stocks)).2 j = _
  rw [valueLoop_values_nth items (stocks.map (stockMapOf ymd)) (buildMap ymd exch)
    (axisOf ymd exch stocks) (initExchange exch) (List.replicate items.length 0) j hj]
  congr 1
  rw [zip_replicate_collapse items (fun it mp lp =>
    holdingValue it (ffVal mp lp ((axisOf ymd exch stocks).take (j + 1)))
      (ffVal (buildMap ymd exch) (initExchange exch)
        ((axisOf ymd exch stocks).take (j + 1)))) (stocks.map (stockMapOf ymd))]
  refine congrArg List.sum ?_
  refine congrFun (congrArg List.map ?_) _
  funext x
  unfold holdingValue
  by_cases h : isKRW x.1.symbol
  · simp [h]
  · simp [h, mul_assoc]

/-- Witness for C1: the spec's Scenario C — a foreign holding with price
10, FX 1300, quantity 2 plus a domestic holding with price 5000,
quantity 1 total 31000 on the single axis date. -/
theorem valuation_total_formula_w :
    nth (portfolioValues (fun t => t.toNat) ⟨[1], [some 1300]⟩
      [some ⟨[1], [some 10]⟩, some ⟨[1], [some 5000]⟩]
      [⟨"AAPL", "A", 2⟩, ⟨"005930.KS", "B", 1⟩]) 0 = some 31000 := by
  rw [valuation_total_formula (fun t => t.toNat) ⟨[1], [some 1300]⟩
    [some ⟨[1], [some 10]⟩, some ⟨[1], [some 5000]⟩]
    [⟨"AAPL", "A", 2⟩, ⟨"005930.KS", "B", 1⟩] (by rfl) 0
    (by simp +decide [axisOf, rawDateKeys, seriesKeys])]
  simp +decide [axisOf, rawDateKeys, seriesKeys, ffVal, ffStep, buildMap,
    stockMapOf, mapGet, initExchange, isKRW]
  norm_num

theorem effectivePriceAt_eq (ymd : Int → Nat) (exch : RawSeries)
    (stocks : List (Option RawSeries)) (items : List Holding)
    (idx j : Nat) (it : Holding) (pm : DateMap)
    (hm : stocks.length = items.length)
    (hit : nth items idx = some it)
    (hpm : nth (stocks.map (stockMapOf ymd)) idx = some pm) :
    effectivePriceAt ymd exch stocks items idx j =
      ffVal pm 0 ((axisOf ymd exch stocks).take (j + 1)) := by
  unfold effectivePriceAt
  rw [show initState exch items =
    ⟨initExchange exch, List.replicate items.length 0⟩ from rfl]
  rw [valueLoop_lastPrices items (stocks.map (stockMapOf ymd)) (buildMap ymd exch)
    (by simpa using hm) ((axisOf ymd exch stocks).take (j + 1)) (initExchange exch)
    (List.replicate items.length 0) (by simp)]
  rw [zip_replicate_collapse items
    (fun _ mp lp => ffVal mp lp ((axisOf ymd exch stocks).take (j + 1)))
    (stocks.map (stockMapOf ymd))]
  rw [nth_map, nth_zip, hit, hpm]
  rfl

theorem exchangeRateAt_eq (ymd : Int → Nat) (exch : RawSeries)
    (stocks : List (Option RawSeries)) (items : List Holding) (j : Nat) :
    exchangeRateAt ymd exch stocks items j =
      ffVal (buildMap ymd exch) (initExchange exch)
        ((axisOf ymd exch stocks).take (j + 1)) := by
  unfold exchangeRateAt
  rw [valueLoop_lastExchange]
  rfl

theorem ffVal_take_window (pm : DateMap) (axis : List Nat)
    (hax : axis.Sorted (· < ·)) (d1 d2 : Nat) (p1 : ℚ) (i1 j d : Nat)
    (hi1 : nth axis i1 = some d1)
    (hv : mapGet pm d1 = some (some p1))
    (hno : ∀ e, d1 < e → e < d2 → ¬∃ v, mapGet pm e = some (some v))
    (hj : nth axis j = some d) (hd1 : d1 ≤ d) (hd2 : d < d2) :
    ffVal pm 0 (axis.take (j + 1)) = p1 := by
  have hij : i1 ≤ j := by
    by_contra hcon
    have hlt : j < i1 := Nat.lt_of_not_le hcon
    have := pairwise_rel_nth hax hlt hj hi1
    omega
  have hsplit : axis.take (j + 1) =
      axis.take (i1 + 1) ++ (axis.take (j + 1)).drop (i1 + 1) := by
    conv_lhs => rw [← List.take_append_drop (i1 + 1) (axis.take (j + 1))]
    rw [List.take_take, Nat.min_eq_left (by omega)]
  rw [hsplit, ffVal_append]
  have hpre : ffVal pm 0 (axis.take (i1 + 1)) = p1 := by
    rw [take_succ_nth axis i1, hi1, ffVal_append]
    simp [ffVal_cons, ffVal_nil, ffStep_of_valid hv]
  rw [hpre]
  apply ffVal_of_no_valid
  intro x hx
  obtain ⟨k, hk⟩ := mem_nth hx
  rw [nth_drop] at hk
  have hklt : i1 + 1 + k < (axis.take (j + 1)).length := nth_some_lt _ _ _ hk
  have hlen : (axis.take (j + 1)).length ≤ j + 1 := List.length_take_le _ _
  have hx2 : nth axis (i1 + 1 + k) = some x := by
    rw [← nth_take axis (j + 1) (i1 + 1 + k) (by omega)]
    exact hk
  have hgt : d1 < x := pairwise_rel_nth hax (by omega) hi1 hx2
  have hlt2 : x < d2 := by
    rcases Nat.lt_or_ge (i1 + 1 + k) j with hlt | hge
    · exact lt_trans (pairwise_rel_nth hax hlt hx2 hj) hd2
    · have heq : i1 + 1 + k = j := by omega
      rw [heq, hj] at hx2
      have : d = x := Option.some.inj hx2
      omega
  exact hno x hgt hlt2

theorem ffVal_take_fix (pm : DateMap) (axis : List Nat) (j : Nat) (init : ℚ)
    (hno : ∀ k d, k ≤ j → nth axis k = some d →
      ¬∃ v, mapGet pm d = some (some v)) :
    ffVal pm init (axis.take (j + 1)) = init := by
  apply ffVal_of_no_valid
  intro x hx
  obtain ⟨k, hk⟩ := mem_nth hx
  have hklt : k < (axis.take (j + 1)).length := nth_some_lt _ _ _ hk
  have hlen : (axis.take (j + 1)).length ≤ j + 1 := List.length_take_le _ _
  have hx2 : nth axis k = some x := by
    rw [← nth_take axis (j + 1) k (by omega)]
    exact hk
  exact hno k x (by omega) hx2

theorem ffVal_take_zero (pm : DateMap) (axis : List Nat) (j : Nat)
    (hno : ∀ k d, k ≤ j → nth axis k = some d →
      ¬∃ v, mapGet pm d = some (some v)) :
    ffVal pm 0 (axis.take (j + 1)) = 0 :=
  ffVal_take_fix pm axis j 0 hno

/-- C3: the forward-filled price the valuation loop of `analyzePortfolio`
uses for a holding: (1) between two valid observations at keys
`d1 < d2` with no valid observation strictly between, every axis date in
`[d1, d2)` uses the price observed at `d1`; (2) an axis date whose map
entry is absent or `null` leaves the forward-fill state unchanged; (3) at
every axis date up to which no valid observation has occurred, the
effective price is 0. -/
theorem forward_fill_semantics (ymd : Int → Nat) (exch : RawSeries)
    (stocks : List (Option RawSeries)) (items : List Holding)
    (idx : Nat) (it : Holding) (pm : DateMap)
    (hm : stocks.length = items.length)
    (hit : nth items idx = some it)
    (hpm : nth (stocks.map (stockMapOf ymd)) idx = some pm) :
    (∀ d1 d2 p1 i1 j d,
        nth (axisOf ymd exch stocks) i1 = some d1 →
        mapGet pm d1 = some (some p1) →
        (∀ e, d1 < e → e < d2 → ¬∃ v, mapGet pm e = some (some v)) →
        nth (axisOf ymd exch stocks) j = some d → d1 ≤ d → d < d2 →
        effectivePriceAt ymd exch stocks items idx j = p1) ∧
    (∀ j d, nth (axisOf ymd exch stocks) (j + 1) = some d →
        (¬∃ v, mapGet pm d = some (some v)) →
        effectivePriceAt ymd exch stocks items idx (j + 1) =
          effectivePriceAt ymd exch stocks items idx j) ∧
    (∀ j, (∀ k d, k ≤ j → nth (axisOf ymd exch stocks) k = some d →
        ¬∃ v, mapGet pm d = some (some v)) →
        effectivePriceAt ymd exch stocks items idx j = 0) := by
  refine ⟨?_, ?_, ?_⟩
  · intro d1 d2 p1 i1 j d hi1 hv hno hj hd1 hd2
    rw [effectivePriceAt_eq ymd exch stocks items idx j it pm hm hit hpm]
    exact ffVal_take_window pm _ (axis_sorted_lt ymd exch stocks) d1 d2 p1 i1 j d
      hi1 hv hno hj hd1 hd2
  · intro j d hjd hno
    rw [effectivePriceAt_eq ymd exch stocks items idx (j + 1) it pm hm hit hpm,
      effectivePriceAt_eq ymd exch stocks items idx j it pm hm hit hpm]
    rw [take_succ_nth (axisOf ymd exch stocks) (j + 1), hjd, ffVal_append]
    simp [ffVal_cons, ffVal_nil, ffStep_of_no_valid hno]
  · intro j hno
    rw [effectivePriceAt_eq ymd exch stocks items idx j it pm hm hit hpm]
    exact ffVal_take_zero pm _ j hno

/-- Witness for C3: axis `[1,2,3]`; holding 0 has valid closes at keys 1
and 3 so date 2 forward-fills the price 7 and the empty date leaves the
state unchanged; holding 1 has its first valid close at key 3 so its
effective price at date 2 is 0. -/
theorem forward_fill_semantics_w :
    effectivePriceAt wYmd wExch3 wStocks3 wItems3 0 1 = 7 ∧
    effectivePriceAt wYmd wExch3 wStocks3 wItems3 0 1 =
      effectivePriceAt wYmd wExch3 wStocks3 wItems3 0 0 ∧
    effectivePriceAt wYmd wExch3 wStocks3 wItems3 1 1 = 0 := by
  refine ⟨?_, ?_, ?_⟩
  · exact (forward_fill_semantics wYmd wExch3 wStocks3 wItems3 0 ⟨"AAPL", "A", 1⟩
      [(1, some 7), (3, some 9)] rfl rfl rfl).1 1 3 7 0 1 2 (by decide) (by decide)
      (by
        intro e h1 h2
        have he : e = 2 := by omega
        subst he
        simp +decide [mapGet])
      (by decide) (by decide) (by decide)
  · exact (forward_fill_semantics wYmd wExch3 wStocks3 wItems3 0 ⟨"AAPL", "A", 1⟩
      [(1, some 7), (3, some 9)] rfl rfl rfl).2.1 0 2 (by decide)
      (by simp +decide [mapGet])
  · exact (forward_fill_semantics wYmd wExch3 wStocks3 wItems3 1 ⟨"MSFT", "B", 1⟩
      [(3, some 50)] rfl rfl rfl).2.2 1
      (by
        intro k d hk hkd
        have hax : axisOf wYmd wExch3 wStocks3 = [1, 2, 3] := by decide
        rw [hax] at hkd
        interval_cases k
        · simp [nth] at hkd
          subst hkd
          simp +decide [mapGet]
        · simp [nth] at hkd
          subst hkd
          simp +decide [mapGet])

/-! ### Helper lemmas about the drawdown scan -/

theorem mdd_acc_nonpos :
    ∀ (vs : List ℚ) (acc : Option ℚ × ℚ), acc.2 ≤ 0 →
      (vs.foldl mddStep acc).2 ≤ 0 := by
  intro vs
  induction vs with
  | nil => intro acc h; exact h
  | cons v vs ih =>
      intro acc h
      show (vs.foldl mddStep (mddStep acc v)).2 ≤ 0
      apply ih
      show (if (v - _) / _ < acc.2 then _ else acc.2) ≤ 0
      split
      · exact le_trans (le_of_lt (by assumption)) h
      · exact h

theorem mdd_invariant :
    ∀ (vs : List ℚ) (p m : ℚ), (∀ v ∈ vs, 0 < v) → 0 < p → -1 < m → m ≤ 0 →
      -1 < (vs.foldl mddStep (some p, m)).2 ∧
        (vs.foldl mddStep (some p, m)).2 ≤ 0 := by
  intro vs
  induction vs with
  | nil => intro p m _ _ h1 h2; exact ⟨h1, h2⟩
  | cons v vs ih =>
      intro p m hpos hp h1 h2
      have hv : 0 < v := hpos v (List.mem_cons_self v vs)
      have hstep : mddStep (some p, m) v =
          (some (if p < v then v else p),
            if (v - if p < v then v else p) / (if p < v then v else p) < m then
              (v - if p < v then v else p) / (if p < v then v else p)
            else m) := rfl
      set peak := if p < v then v else p with hpeak
      have hpeak_pos : 0 < peak := by
        rw [hpeak]; split
        · exact hv
        · exact hp
      have hvle : v ≤ peak := by
        rw [hpeak]; split
        · exact le_refl v
        · exact le_of_not_lt (by assumption)
      have hdd_le : (v - peak) / peak ≤ 0 :=
        div_nonpos_of_nonpos_of_nonneg (by linarith) (le_of_lt hpeak_pos)
      have hdd_gt : -1 < (v - peak) / peak := by
        rw [lt_div_iff₀ hpeak_pos]
        linarith
      show -1 < (vs.foldl mddStep (mddStep (some p, m) v)).2 ∧
        (vs.foldl mddStep (mddStep (some p, m) v)).2 ≤ 0
      rw [hstep]
      refine ih peak _ (fun w hw => hpos w (List.mem_cons_of_mem v hw)) hpeak_pos ?_ ?_
      · split
        · exact hdd_gt
        · exact h1
      · split
        · exact hdd_le
        · exact h2

/-- C4: `maxDrawdown` follows the running-peak algorithm: the first point
always becomes the initial peak (the `-Infinity` start loses to any
value), the retained most-negative ratio is never positive, and for a
series of positive values the reported percentage `maxDrawdown * 100`
lies in `[-100, 0]`. -/
theorem max_drawdown_props :
    (∀ (v m : ℚ), (mddStep (none, m) v).1 = some v) ∧
    (∀ vs : List ℚ, maxDrawdown vs ≤ 0) ∧
    (∀ vs : List ℚ, (∀ v ∈ vs, 0 < v) →
      -100 ≤ maxDrawdown vs * 100 ∧ maxDrawdown vs * 100 ≤ 0) := by
  refine ⟨fun v m => rfl, ?_, ?_⟩
  · intro vs
    exact mdd_acc_nonpos vs (none, 0) (le_refl 0)
  · intro vs hpos
    cases vs with
    | nil =>
        constructor <;> norm_num [maxDrawdown]
    | cons v vs =>
        have hv : 0 < v := hpos v (List.mem_cons_self v vs)
        have hfirst : mddStep (none, 0) v = (some v, 0) := by
          unfold mddStep
          simp
        have h := mdd_invariant vs v 0
          (fun w hw => hpos w (List.mem_cons_of_mem v hw)) hv (by norm_num)
          (le_refl 0)
        have hval : maxDrawdown (v :: vs) = (vs.foldl mddStep (some v, 0)).2 := by
          unfold maxDrawdown
          rw [List.foldl_cons, hfirst]
        rw [hval]
        constructor <;> nlinarith [h.1, h.2]

/-- Witness for C4: the spec's Scenario B series `[100, 50, 100]` has
drawdown `-1/2`, reported as a percentage inside `[-100, 0]`. -/
theorem max_drawdown_props_w :
    maxDrawdown [100, 50, 100] = -(1 / 2) ∧
    -100 ≤ maxDrawdown [100, 50, 100] * 100 ∧
      maxDrawdown [100, 50, 100] * 100 ≤ 0 := by
  refine ⟨by with_unfolding_all decide, max_drawdown_props.2.2 [100, 50, 100] ?_⟩
  decide

/-- C5: the CAGR of the single-portfolio path takes its years from the
fixed lookup (10y→10, 7y→7, 5y→5, 3y→3, 1y→1, 6mo→0.5, anything else →
5) and is `((last/first)^(1/years) - 1) × 100` exactly when both the
first and last valuation are positive, 0 otherwise. -/
theorem cagr_lookup_and_guard :
    rangeYears "10y" = 10 ∧ rangeYears "7y" = 7 ∧ rangeYears "5y" = 5 ∧
    rangeYears "3y" = 3 ∧ rangeYears "1y" = 1 ∧ rangeYears "6mo" = 1 / 2 ∧
    (∀ r : String, r ∉ (["10y", "7y", "5y", "3y", "1y", "6mo"] : List String) →
      rangeYears r = 5) ∧
    (∀ (pow : ℚ → ℚ → ℚ) (ymd : Int → Nat) (range : String) (exch : RawSeries)
        (stocks : List (Option RawSeries)) (items : List Holding),
      (analyzeStats pow ymd range exch stocks items).cagr =
        if 0 < (portfolioValues ymd exch stocks items).headD 0 ∧
            0 < ((portfolioValues ymd exch stocks items).getLast?).getD 0 then
          (pow (((portfolioValues ymd exch stocks items).getLast?).getD 0 /
              (portfolioValues ymd exch stocks items).headD 0)
            (1 / rangeYears range) - 1) * 100
        else 0) := by
  refine ⟨rfl, rfl, rfl, rfl, rfl, rfl, ?_, ?_⟩
  · intro r hr
    simp only [List.mem_cons, not_or] at hr
    obtain ⟨h1, h2, h3, h4, h5, h6, -⟩ := hr
    unfold rangeYears
    rw [if_neg h1, if_neg h2, if_neg h3, if_neg h4, if_neg h5, if_neg h6]
  · intro pow ymd range exch stocks items
    rfl

/-- Witness for C5: an unlisted range string falls back to 5 years. -/
theorem cagr_lookup_and_guard_w : rangeYears "2y" = 5 :=
  cagr_lookup_and_guard.2.2.2.2.2.2.1 "2y" (by decide)

/-! ### Helper lemmas for the adaptive range prober -/

theorem invalid_elem_iff (r : Option RawSeries) :
    (match r with
      | some s => decide (10 ≤ s.timestamp.length)
      | none => false) = false ↔
    ∀ s, r = some s → s.timestamp.length < 10 := by
  cases r with
  | none => simp
  | some s => simp [Nat.lt_iff_le_pred, Nat.not_le]

theorem validResults_false_iff (fetch : String → String → Option RawSeries)
    (items : List WItem) (range : String) :
    validResults (probeResults fetch items range) = false ↔
    ∃ it ∈ items, ∀ s, fetch it.symbol range = some s →
      s.timestamp.length < 10 := by
  unfold validResults probeResults
  rw [← Bool.not_eq_true, List.all_eq_true]
  constructor
  · intro h
    rcases not_forall.mp h with ⟨r, hr⟩
    rcases Classical.not_imp.mp hr with ⟨hmem, hfalse⟩
    rcases List.mem_map.mp hmem with ⟨it, hit, rfl⟩
    exact ⟨it, hit, (invalid_elem_iff _).mp (Bool.eq_false_iff.mpr hfalse)⟩
  · intro ⟨it, hit, hbad⟩ hall
    have hmem := hall (fetch it.symbol range) (List.mem_map.mpr ⟨it, hit, rfl⟩)
    have hfalse := (invalid_elem_iff (fetch it.symbol range)).mpr hbad
    rw [hfalse] at hmem
    exact Bool.false_ne_true hmem

theorem probeLoop_eq_findSome (pow : ℚ → ℚ → ℚ)
    (fetch : String → String → Option RawSeries) (items : List WItem) :
    ∀ l : List String, probeLoop pow fetch items l =
      (l.findSome? (probeRange pow fetch items)).getD sentinelResult := by
  intro l
  induction l with
  | nil => rfl
  | cons r l ih =>
      show (match probeRange pow fetch items r with
        | some res => res
        | none => probeLoop pow fetch items l) = _
      rw [List.findSome?_cons]
      cases probeRange pow fetch items r with
      | some res => rfl
      | none => simpa using ih

/-- C6: the adaptive range prober tries the ranges `[10y, 5y, 3y, 1y]` in
that fixed order; a candidate range is rejected exactly when some asset
has fewer than 10 raw observations or the common aligned length after
trimming to the latest common start is below 120; a surviving range
returns its computed result, and the overall result is the first
surviving range's result, the sentinel `{range:'N/A', return:'0.00',
mdd:'0.00'}` when every candidate is rejected. -/
theorem prober_order_and_sentinel (pow : ℚ → ℚ → ℚ)
    (fetch : String → String → Option RawSeries) (items : List WItem) :
    (∀ range, probeRange pow fetch items range = none ↔
      ((∃ it ∈ items, ∀ s, fetch it.symbol range = some s →
          s.timestamp.length < 10) ∨
        probeMinLen fetch items range < 120)) ∧
    (∀ range, probeRange pow fetch items range ≠ none →
      probeRange pow fetch items range = some (probeComputeOn pow items
        (probeAligned fetch items range) (probeMinLen fetch items range)
        range)) ∧
    calcPortfolioMetrics pow fetch items =
      ((["10y", "5y", "3y", "1y"].findSome?
        (probeRange pow fetch items)).getD sentinelResult) := by
  refine ⟨?_, ?_, probeLoop_eq_findSome pow fetch items _⟩
  · intro range
    unfold probeRange
    constructor
    · intro h
      by_cases hval : validResults (probeResults fetch items range) = true
      · rw [if_pos hval] at h
        by_cases hlen : 120 ≤ probeMinLen fetch items range
        · rw [if_pos hlen] at h
          exact absurd h (by simp)
        · exact Or.inr (by omega)
      · exact Or.inl ((validResults_false_iff fetch items range).mp
          (Bool.eq_false_iff.mpr hval))
    · intro h
      by_cases hval : validResults (probeResults fetch items range) = true
      · rw [if_pos hval]
        rcases h with h | h
        · have hf := (validResults_false_iff fetch items range).mpr h
          rw [hf] at hval
          exact absurd hval (by simp)
        · rw [if_neg (by omega)]
      · rw [if_neg hval]
  · intro range h
    unfold probeRange at h ⊢
    by_cases hval : validResults (probeResults fetch items range) = true
    · rw [if_pos hval] at h ⊢
      by_cases hlen : 120 ≤ probeMinLen fetch items range
      · rw [if_pos hlen]
      · rw [if_neg hlen] at h
        exact absurd rfl h
    · rw [if_neg hval] at h
      exact absurd rfl h

/-- Witness for C6: the spec's Scenario D — an asset with only 8 raw
observations is rejected at every range and the prober returns the
sentinel. -/
theorem prober_order_and_sentinel_w :
    probeRange (fun x _ => x) probeFetch8 [⟨"X", 1⟩] "10y" = none ∧
    calcPortfolioMetrics (fun x _ => x) probeFetch8 [⟨"X", 1⟩] =
      sentinelResult := by
  have h := prober_order_and_sentinel (fun x _ => x) probeFetch8 [⟨"X", 1⟩]
  refine ⟨(h.1 "10y").mpr (Or.inl ⟨⟨"X", 1⟩, by simp, fun s hs => ?_⟩), ?_⟩
  · have : s = ⟨[1, 2, 3, 4, 5, 6, 7, 8],
        [some 1, some 1, some 1, some 1, some 1, some 1, some 1, some 1]⟩ :=
      (Option.some.inj hs).symm
    rw [this]
    decide
  · rw [h.2.2]
    decide

/-- Counterexample to C7 as stated: when the FX series' first raw close
is a valid value (1000 here) and a stock date precedes the first FX axis
date, the multiplier used on that earlier date is 1000 — the first raw
close — not the fallback constant 1200, and the valuation is 10000, not
the 12000 the claim's fallback would give. -/
theorem fx_fallback_counterexample :
    exchangeRateAt wYmd c7Exch c7Stocks c7Items 0 = 1000 ∧
    nth (portfolioValues wYmd c7Exch c7Stocks c7Items) 0 = some 10000 ∧
    (1000 : ℚ) ≠ 1200 ∧ (10000 : ℚ) ≠ 12000 := by
  refine ⟨by decide, ?_, by norm_num, by norm_num⟩
  simp +decide [portfolioValues, valueLoop, valueStep, axisOf, rawDateKeys,
    seriesKeys, initState, initExchange, buildMap, stockMapOf, mapGet, ffStep,
    holdingValue, isKRW, wYmd, c7Exch, c7Stocks, c7Items, nth]
  norm_num

/-- C7 amended: on axis dates before the first valid FX observation the
engine uses `initExchange` — the FX series' first raw close when it is
present, non-null and non-zero, and the constant 1200 only otherwise —
and a valid FX observation on an axis date sets the rate, which then
forward-fills across later observation-free dates. -/
theorem fx_prefill_amended (ymd : Int → Nat) (exch : RawSeries)
    (stocks : List (Option RawSeries)) (items : List Holding) :
    (∀ j, (∀ k d, k ≤ j → nth (axisOf ymd exch stocks) k = some d →
        ¬∃ v, mapGet (buildMap ymd exch) d = some (some v)) →
      exchangeRateAt ymd exch stocks items j = initExchange exch) ∧
    (∀ (v0 : ℚ) rest, exch.close = some v0 :: rest → v0 ≠ 0 →
      initExchange exch = v0) ∧
    (∀ (v0 : ℚ) rest, exch.close = some v0 :: rest → v0 = 0 →
      initExchange exch = 1200) ∧
    (∀ rest, exch.close = none :: rest → initExchange exch = 1200) ∧
    (exch.close = [] → initExchange exch = 1200) ∧
    (∀ j d v, nth (axisOf ymd exch stocks) j = some d →
      mapGet (buildMap ymd exch) d = some (some v) →
      exchangeRateAt ymd exch stocks items j = v) ∧
    (∀ j d, nth (axisOf ymd exch stocks) (j + 1) = some d →
      (¬∃ v, mapGet (buildMap ymd exch) d = some (some v)) →
      exchangeRateAt ymd exch stocks items (j + 1) =
        exchangeRateAt ymd exch stocks items j) := by
  refine ⟨?_, ?_, ?_, ?_, ?_, ?_, ?_⟩
  · intro j hno
    rw [exchangeRateAt_eq]
    exact ffVal_take_fix _ _ j _ hno
  · intro v0 rest hc hne
    unfold initExchange
    rw [hc]
    exact if_neg hne
  · intro v0 rest hc h0
    unfold initExchange
    rw [hc]
    exact if_pos h0
  · intro rest hc
    unfold initExchange
    rw [hc]
  · intro hc
    unfold initExchange
    rw [hc]
  · intro j d v hjd hv
    rw [exchangeRateAt_eq, take_succ_nth (axisOf ymd exch stocks) j, hjd,
      ffVal_append]
    simp [ffVal_cons, ffVal_nil, ffStep_of_valid hv]
  · intro j d hjd hno
    rw [exchangeRateAt_eq, exchangeRateAt_eq,
      take_succ_nth (axisOf ymd exch stocks) (j + 1), hjd, ffVal_append]
    simp [ffVal_cons, ffVal_nil, ffStep_of_no_valid hno]

/-- Witness for C7's amended statement: the axis is `[1, 3]`; on date 1
(before any FX observation) the rate is `initExchange = 1000`, and on
date 3 the real observation 1000 takes over. -/
theorem fx_prefill_amended_w :
    exchangeRateAt wYmd c7Exch c7Stocks c7Items 0 = initExchange c7Exch ∧
    initExchange c7Exch = 1000 ∧
    exchangeRateAt wYmd c7Exch c7Stocks c7Items 1 = 1000 := by
  have h := fx_prefill_amended wYmd c7Exch c7Stocks c7Items
  refine ⟨h.1 0 ?_, h.2.1 1000 [] rfl (by norm_num), ?_⟩
  · intro k d hk hkd
    have hk0 : k = 0 := by omega
    subst hk0
    have hax : axisOf wYmd c7Exch c7Stocks = [1, 3] := by decide
    rw [hax] at hkd
    simp [nth] at hkd
    subst hkd
    simp +decide [mapGet, buildMap, c7Exch, wYmd]
  · exact h.2.2.2.2.2.1 1 3 1000 (by decide) (by decide)

/-- Counterexample to C8 as stated: holding B's first available price is
at the second axis date (value 50 there), but the source's start
snapshot looks only at `sortedDates[0]` and assigns B the value 0, not
its value at the first axis date where a price is available. -/
theorem start_snapshot_counterexample :
    nth (startValues wYmd c8Exch c8Stocks c8Items) 1 = some ("B", 0) ∧
    claimStartValue [(2, some 50)] (buildMap wYmd c8Exch) (initExchange c8Exch)
      (axisOf wYmd c8Exch c8Stocks) ⟨"B.KS", "B", 1⟩ = 50 ∧
    (50 : ℚ) ≠ 0 := by
  refine ⟨by decide, ?_, by norm_num⟩
  simp +decide [claimStartValue, axisOf, rawDateKeys, seriesKeys, mapGet,
    buildMap, stockMapOf, nth, isKRW, jsVal, ffVal, ffStep, initExchange,
    wYmd, c8Exch, c8Stocks, List.findIdx?]

/-- C8 amended: the start snapshot uses only the first axis date — a
holding with no map entry there gets 0, a holding with an entry gets
(null-coerced) close × quantity × (FX at that date, null-coerced, 1200
when absent) for foreign symbols; the end snapshot uses the final
forward-filled price and FX rate with a `price > 0` guard. -/
theorem composition_snapshot_amended (ymd : Int → Nat) (exch : RawSeries)
    (stocks : List (Option RawSeries)) (items : List Holding)
    (idx : Nat) (it : Holding) (pm : DateMap)
    (hm : stocks.length = items.length)
    (hit : nth items idx = some it)
    (hpm : nth (stocks.map (stockMapOf ymd)) idx = some pm) :
    (∀ d0, (axisOf ymd exch stocks).head? = some d0 →
      mapGet pm d0 = none →
      nth (startValues ymd exch stocks items) idx = some (it.name, 0)) ∧
    (∀ d0 c, (axisOf ymd exch stocks).head? = some d0 →
      mapGet pm d0 = some c →
      nth (startValues ymd exch stocks items) idx = some (it.name,
        if isKRW it.symbol then jsVal c * it.quantity
        else jsVal c * it.quantity *
          (match mapGet (buildMap ymd exch) d0 with
            | some v => jsVal v
            | none => 1200))) ∧
    nth (endValues ymd exch stocks items) idx = some (it.name,
      if 0 < ffVal pm 0 (axisOf ymd exch stocks) then
        (if isKRW it.symbol then
          ffVal pm 0 (axisOf ymd exch stocks) * it.quantity
        else
          ffVal pm 0 (axisOf ymd exch stocks) * it.quantity *
            ffVal (buildMap ymd exch) (initExchange exch)
              (axisOf ymd exch stocks))
      else 0) := by
  have hfsP : (finalState ymd exch stocks items).lastPrices =
      (items.zip (stocks.map (stockMapOf ymd))).map
        (fun x => ffVal x.2 0 (axisOf ymd exch stocks)) := by
    unfold finalState
    rw [show initState exch items =
      ⟨initExchange exch, List.replicate items.length 0⟩ from rfl]
    rw [valueLoop_lastPrices items (stocks.map (stockMapOf ymd))
      (buildMap ymd exch) (by simpa using hm) (axisOf ymd exch stocks)
      (initExchange exch) (List.replicate items.length 0) (by simp)]
    exact zip_replicate_collapse items
      (fun _ mp lp => ffVal mp lp (axisOf ymd exch stocks)) _
  have hfsE : (finalState ymd exch stocks items).lastExchange =
      ffVal (buildMap ymd exch) (initExchange exch)
        (axisOf ymd exch stocks) := by
    unfold finalState
    rw [valueLoop_lastExchange]
    rfl
  refine ⟨?_, ?_, ?_⟩
  · intro d0 hd0 hnone
    unfold startValues
    simp only [hd0]
    rw [nth_map, nth_zip, hit, hpm]
    simp [hnone]
  · intro d0 c hd0 hc
    unfold startValues
    simp only [hd0]
    rw [nth_map, nth_zip, hit, hpm]
    simp [hc]
  · unfold endValues
    simp only [hfsP, hfsE]
    rw [nth_map, nth_zip, hit]
    have hprice : nth ((items.zip (stocks.map (stockMapOf ymd))).map
        (fun x => ffVal x.2 0 (axisOf ymd exch stocks))) idx =
        some (ffVal pm 0 (axisOf ymd exch stocks)) := by
      rw [nth_map, nth_zip, hit, hpm]
      rfl
    rw [hprice]
    by_cases hpos : 0 < ffVal pm 0 (axisOf ymd exch stocks)
    · simp [hpos]
    · simp [hpos]

/-- Witness for C8's amended statement: on the concrete instance, holding
B (no entry at the first axis date) gets start value 0, and holding A
(entry 100 at the first axis date) gets start value 100. -/
theorem composition_snapshot_amended_w :
    nth (startValues wYmd c8Exch c8Stocks c8Items) 1 = some ("B", 0) ∧
    nth (startValues wYmd c8Exch c8Stocks c8Items) 0 = some ("A", 100) := by
  have hB := (composition_snapshot_amended wYmd c8Exch c8Stocks c8Items 1
    ⟨"B.KS", "B", 1⟩ [(2, some 50)] rfl rfl rfl).1 1 (by decide) (by decide)
  have hA := (composition_snapshot_amended wYmd c8Exch c8Stocks c8Items 0
    ⟨"A.KS", "A", 1⟩ [(1, some 100)] rfl rfl rfl).2.1 1 (some 100)
    (by decide) (by decide)
  refine ⟨hB, hA.trans ?_⟩
  simp +decide [isKRW, jsVal]

/-- C9 (code bug evaluation): on a portfolio whose valuation series
starts at 0 — a foreign holding listed after the FX series' first date —
the reported total return of `analyzePortfolio` is the non-finite result
of dividing by the zero first valuation (modelled `none`), not a guarded
0; the adjacent CAGR is guarded, the total return is not. -/
theorem total_return_unguarded_eval :
    portfolioValues wYmd c9Exch c9Stocks c9Items = [0, 26000] ∧
    (analyzeStats (fun x _ => x) wYmd "5y" c9Exch c9Stocks c9Items).totalReturn
      = none ∧
    (analyzeStats (fun x _ => x) wYmd "5y" c9Exch c9Stocks c9Items).cagr = 0 := by
  have hv : portfolioValues wYmd c9Exch c9Stocks c9Items = [0, 26000] := by
    simp +decide [portfolioValues, valueLoop, valueStep, axisOf, rawDateKeys,
      seriesKeys, initState, initExchange, buildMap, stockMapOf, mapGet, ffStep,
      holdingValue, isKRW, wYmd, c9Exch, c9Stocks, c9Items]
    norm_num
  refine ⟨hv, ?_, ?_⟩
  · simp +decide [analyzeStats, hv, totalReturnJS]
  · simp +decide [analyzeStats, hv, cagrReported]

/-! ### Helper lemma for the per-date lookup maps -/

theorem mapGet_eq_last_write :
    ∀ (m : DateMap) (k : Nat),
      mapGet m k = ((m.filter (fun e => e.1 == k)).getLast?).map Prod.snd := by
  intro m k
  induction m with
  | nil => rfl
  | cons e t ih =>
      show (match mapGet t k with
        | some v => some v
        | none => if e.1 = k then some e.2 else none) = _
      rw [List.filter_cons]
      by_cases he : e.1 = k
      · simp only [he, beq_self_eq_true, if_pos]
        cases h : mapGet t k with
        | some v =>
            rw [h] at ih
            cases h2 : t.filter (fun e => e.1 == k) with
            | nil => rw [h2] at ih; simp at ih
            | cons b l =>
                rw [h2] at ih
                rw [List.getLast?_cons_cons]
                exact ih
        | none =>
            rw [h] at ih
            have hnil : t.filter (fun e => e.1 == k) = [] := by
              cases h2 : t.filter (fun e => e.1 == k) with
              | nil => rfl
              | cons b l =>
                  rw [h2] at ih
                  simp [List.getLast?_cons] at ih
            rw [hnil]
            simp [he]
      · have hbeq : (e.1 == k) = false := by simpa using he
        rw [hbeq]
        simp only [Bool.false_eq_true, if_false]
        cases h : mapGet t k with
        | some v => rw [h] at ih; exact ih
        | none => rw [h] at ih; rw [if_neg he]; exact ih

/-- C10: the per-date lookup maps built by `analyzePortfolio` keep, for
every date key, only the write that occurs last in the input array
(last-write-wins), for stock and FX series alike — and on a series with
two same-date closes 100 then 110 the valuation uses 110, the earlier
close never contributing. -/
theorem per_date_lookup_last_write_wins :
    (∀ (ymd : Int → Nat) (r : RawSeries) (k : Nat),
      mapGet (buildMap ymd r) k =
        (((buildMap ymd r).filter (fun e => e.1 == k)).getLast?).map Prod.snd) ∧
    portfolioValues c10Ymd c10Exch c10Stocks c10Items = [110] ∧
    portfolioValues c10Ymd ⟨[11, 15], [some 1200, some 1300]⟩
      [some ⟨[12], [some 10]⟩] [⟨"AAPL", "A", 1⟩] = [13000] := by
  refine ⟨fun ymd r k => mapGet_eq_last_write (buildMap ymd r) k, ?_, ?_⟩
  · simp +decide [portfolioValues, valueLoop, valueStep, axisOf, rawDateKeys,
      seriesKeys, initState, initExchange, buildMap, stockMapOf, mapGet, ffStep,
      holdingValue, isKRW, c10Ymd, c10Exch, c10Stocks, c10Items]
  · simp +decide [portfolioValues, valueLoop, valueStep, axisOf, rawDateKeys,
      seriesKeys, initState, initExchange, buildMap, stockMapOf, mapGet, ffStep,
      holdingValue, isKRW, c10Ymd]
    norm_num

end InvestProto
